import Mathlib

/-!
# Verification of the pygrametl-based ETL pipeline

A shallow embedding of the repository's two jobs:

* Job A (`etl.py`): bulk-preload of the Location dimension from a CSV
  reference source, followed by a loop over the sales rows that splits the
  timestamp, ensures Book and Time dimension keys, performs a strict Location
  lookup (aborting on a falsy key), inserts into the fact table, and commits
  once at the end of the run.
* Job B (`upload.py`): streams each line of a gzip-compressed input into a
  warehouse table through a bulk-copy channel.

The `Dimension` operations (`insert`, `lookup`, `ensure`) and the fact-table
insert come from the pygrametl library, which is not part of this repository;
they are modelled from the specification (section 4.4).  The ETL driver, the
timestamp splitter, the dimension/fact-table configurations and Job B are
translated directly from `src/etl.py` and `src/upload.py`.
-/

namespace ETL

/-- A Python scalar value as it occurs in this pipeline: a string, an integer,
or Python's `None` (as stored into `row['locationid']` by a failed lookup). -/
inductive Val where
  | str : String → Val
  | int : Int → Val
  | none : Val
deriving DecidableEq, Repr

/-- Python truthiness restricted to the values of this pipeline: `None` is
falsy, an integer is truthy iff non-zero, a string is truthy iff non-empty. -/
def pyTruthy : Val → Bool
  | Val.str s => s ≠ ""
  | Val.int n => n ≠ 0
  | Val.none => false

/-- The errors the pipeline can raise: `KeyError` on a missing dict key,
`IndexError` on an out-of-range list index, and the `ValueError` raised by the
driver's referential-integrity check. -/
inductive PyErr where
  | keyError : PyErr
  | indexError : PyErr
  | valueError : PyErr
deriving DecidableEq, Repr

/-- A row: a finite mapping from column names to values, as an association
list where the head entry shadows later entries with the same key (so that
`rowSet` models Python dict assignment). -/
abbrev Row := List (String × Val)

/-- Reading `row[k]`: the value of the first entry with key `k`. -/
def rowGet (r : Row) (k : String) : Option Val :=
  (r.find? (fun p => p.1 == k)).map (fun p => p.2)

/-- Python dict assignment `row[k] = v`, modelled by shadowing. -/
def rowSet (r : Row) (k : String) (v : Val) : Row :=
  (k, v) :: r

/-- Python's `s.split(sep)` for a one-character separator, accumulator form:
`acc` holds the characters of the current field in reverse. -/
def pySplitAux (sep : Char) : List Char → List Char → List String
  | [], acc => [String.mk acc.reverse]
  | c :: cs, acc =>
    if c = sep then String.mk acc.reverse :: pySplitAux sep cs []
    else pySplitAux sep cs (c :: acc)

/-- Python's `s.split(sep)` for a one-character separator.  Always returns at
least one element; `"a/b".split('/') = ["a", "b"]`, `"".split('/') = [""]`. -/
def pySplit (s : String) (sep : Char) : List String :=
  pySplitAux sep s.data []

/-- `split_timestamp` from `src/etl.py` (lines 80-93): reads `row['timestamp']`
(KeyError if absent), splits it on `'/'`, and assigns parts 0, 1, 2 to
`row['year']`, `row['month']`, `row['day']` in that order; accessing a part
beyond the split result is an IndexError.  The updated row is returned (the
source mutates the dict in place). -/
def split_timestamp (row : Row) : Except PyErr Row :=
  match rowGet row "timestamp" with
  | Option.none => Except.error PyErr.keyError
  | Option.some (Val.int _) => Except.error PyErr.keyError
  | Option.some Val.none => Except.error PyErr.keyError
  | Option.some (Val.str timestamp) =>
    match pySplit timestamp '/' with
    | [] => Except.error PyErr.indexError
    | [_] => Except.error PyErr.indexError
    | [_, _] => Except.error PyErr.indexError
    | p0 :: p1 :: p2 :: _ =>
      Except.ok (rowSet (rowSet (rowSet row "year" (Val.str p0))
        "month" (Val.str p1)) "day" (Val.str p2))

/-- A dimension table's static metadata: table name, surrogate-key column,
descriptive attribute columns, and the subset of attributes used for lookup
(defaulting to all attributes when not given, as in pygrametl). -/
structure Dimension where
  name : String
  key : String
  attributes : List String
  lookupatts : List String
deriving DecidableEq, Repr

/-- The values of a row's lookup attributes, in `lookupatts` order. -/
def tupleOf (d : Dimension) (r : Row) : List (Option Val) :=
  d.lookupatts.map (rowGet r)

/-- A dimension row as stored in the warehouse: attribute column name mapped
to the (possibly absent) value taken from the source row at insert time. -/
abbrev StoredRow := List (String × Option Val)

/-- Projection of a source row onto a dimension's attribute columns, as
performed by `insert`. -/
def storedOf (d : Dimension) (r : Row) : StoredRow :=
  d.attributes.map (fun a => (a, rowGet r a))

/-- Reading an attribute value back from a stored dimension row. -/
def storedGet (s : StoredRow) (k : String) : Option Val :=
  ((s.find? (fun p => p.1 == k)).map (fun p => p.2)).join

/-- The lookup tuple of a stored dimension row. -/
def storedTuple (d : Dimension) (s : StoredRow) : List (Option Val) :=
  d.lookupatts.map (storedGet s)

/-- The mutable state of one dimension table: the stored rows with their
surrogate keys, the next auto-generated key, and the in-process cache from
lookup tuples to keys (spec section 4.4: lookup "may consult and populate a
local cache keyed by the lookup-attribute tuple"). -/
structure DimState where
  rows : List (Int × StoredRow)
  nextKey : Int
  cache : List (List (Option Val) × Int)
deriving DecidableEq, Repr

/-- The key of the first stored row whose lookup tuple equals `t`, if any:
the backing store's answer to a lookup query. -/
def findKey (d : Dimension) (rows : List (Int × StoredRow))
    (t : List (Option Val)) : Option Int :=
  (rows.find? (fun p => decide (storedTuple d p.2 = t))).map (fun p => p.1)

/-- The cached key for lookup tuple `t`, if present. -/
def cacheFind (c : List (List (Option Val) × Int))
    (t : List (Option Val)) : Option Int :=
  (c.find? (fun e => decide (e.1 = t))).map (fun e => e.2)

/-- Modelled from the spec: pygrametl's `Dimension.lookup` (section 4.4, not
in `src/`).  Using only the lookup-attribute subset of the row, consult the
cache, then the backing store; on a store hit populate the cache.  Returns
the matching surrogate key or the not-found sentinel (`Option.none`); the
stored rows are never modified. -/
def Dimension.lookup (d : Dimension) (st : DimState) (r : Row) :
    Option Int × DimState :=
  let t := tupleOf d r
  match cacheFind st.cache t with
  | Option.some k => (Option.some k, st)
  | Option.none =>
    match findKey d st.rows t with
    | Option.some k => (Option.some k, { st with cache := (t, k) :: st.cache })
    | Option.none => (Option.none, st)

/-- Modelled from the spec: pygrametl's `Dimension.insert` (section 4.4, not
in `src/`).  Unconditionally appends a new row using the row's values for the
attribute columns, with an auto-generated surrogate key; does not check for
duplicates.  Returns the assigned key. -/
def Dimension.insert (d : Dimension) (st : DimState) (r : Row) :
    Int × DimState :=
  (st.nextKey,
   { rows := st.rows ++ [(st.nextKey, storedOf d r)],
     nextKey := st.nextKey + 1,
     cache := st.cache })

/-- Modelled from the spec: pygrametl's `Dimension.ensure` (section 4.4, not
in `src/`).  `lookup`; if found return the existing key, else `insert` and
return the new key (get-or-create). -/
def Dimension.ensure (d : Dimension) (st : DimState) (r : Row) :
    Int × DimState :=
  match Dimension.lookup d st r with
  | (Option.some k, st1) => (k, st1)
  | (Option.none, st1) => Dimension.insert d st1 r

/-- Cache coherence: every cache entry agrees with the backing store.  Holds
for the empty cache and is preserved by all three dimension operations. -/
def cacheOK (d : Dimension) (st : DimState) : Prop :=
  ∀ e ∈ st.cache, findKey d st.rows e.1 = Option.some e.2

/-- The spec's dimension invariant (section 3): surrogate keys are bounded by
the key generator (hence fresh keys are new), key values are unique, and a
given lookup-tuple maps to at most one surrogate key. -/
def dimInv (d : Dimension) (st : DimState) : Prop :=
  (∀ p ∈ st.rows, p.1 < st.nextKey) ∧
  (st.rows.map Prod.fst).Nodup ∧
  (∀ p ∈ st.rows, ∀ q ∈ st.rows,
    storedTuple d p.2 = storedTuple d q.2 → p.1 = q.1)

/-- `book_dimension` from `src/etl.py` (lines 55-58); `lookupatts` defaults to
all attributes. -/
def book_dimension : Dimension :=
  { name := "book", key := "bookid",
    attributes := ["book", "genre"], lookupatts := ["book", "genre"] }

/-- `time_dimension` from `src/etl.py` (lines 60-63); `lookupatts` defaults to
all attributes. -/
def time_dimension : Dimension :=
  { name := "time", key := "timeid",
    attributes := ["day", "month", "year"], lookupatts := ["day", "month", "year"] }

/-- `location_dimension` from `src/etl.py` (lines 65-69). -/
def location_dimension : Dimension :=
  { name := "location", key := "locationid",
    attributes := ["city", "region"], lookupatts := ["city"] }

/-- A fact table's static metadata, from `src/etl.py` (lines 74-77). -/
structure FactTable where
  name : String
  keyrefs : List String
  measures : List String
deriving DecidableEq, Repr

/-- `fact_table` from `src/etl.py` (lines 74-77). -/
def fact_table : FactTable :=
  { name := "facttable",
    keyrefs := ["bookid", "locationid", "timeid"], measures := ["sale"] }

/-- Modelled from the spec: pygrametl's `FactTable.insert` projection (section
4.5, not in `src/`): the appended fact row carries the foreign keys and the
measures taken from the source row. -/
def factRowOf (ft : FactTable) (r : Row) : StoredRow :=
  (ft.keyrefs ++ ft.measures).map (fun a => (a, rowGet r a))

/-- The value stored into `row['locationid']` by the driver: the key on a
lookup hit, Python `None` on a miss. -/
def valOfKey : Option Int → Val
  | Option.some k => Val.int k
  | Option.none => Val.none

/-- One warehouse-facing operation of Job A, tagged with the source row it was
performed for (events for a sales row carry the original sales row). -/
inductive Ev where
  | locInsert : Row → Int → Ev
  | split : Row → Ev
  | ensureBook : Row → Int → Ev
  | ensureTime : Row → Int → Ev
  | lookupLoc : Row → Option Int → Ev
  | factInsert : Row → Ev
  | commit : Ev
deriving DecidableEq, Repr

/-- Whether an event is the commit. -/
def Ev.isCommit : Ev → Bool
  | Ev.commit => true
  | _ => false

/-- Number of commit events in a trace. -/
def countCommit (tr : List Ev) : Nat := tr.countP Ev.isCommit

/-- The running state of Job A: the three dimension states, the fact table's
rows, and the trace of warehouse operations performed so far. -/
structure ETLState where
  book : DimState
  time : DimState
  loc : DimState
  facts : List StoredRow
  trace : List Ev
deriving DecidableEq, Repr

/-- The body of the sales loop of `src/etl.py` (lines 116-146) for one row:
split the timestamp, ensure the Book key, ensure the Time key, look up the
Location key, abort with `ValueError` if `row['locationid']` is falsy
(`if not row['locationid']`), else insert the completed row into the fact
table.  Returns the state reached (mutations made before an error persist,
as in Python) and the error, if any. -/
def processSalesRow (st : ETLState) (row : Row) : ETLState × Option PyErr :=
  match split_timestamp row with
  | Except.error e => ({ st with trace := st.trace ++ [Ev.split row] }, Option.some e)
  | Except.ok row1 =>
    let bres := Dimension.ensure book_dimension st.book row1
    let row2 := rowSet row1 "bookid" (Val.int bres.1)
    let tres := Dimension.ensure time_dimension st.time row2
    let row3 := rowSet row2 "timeid" (Val.int tres.1)
    let lres := Dimension.lookup location_dimension st.loc row3
    let lv := valOfKey lres.1
    let row4 := rowSet row3 "locationid" lv
    let st1 : ETLState :=
      { st with
        book := bres.2, time := tres.2, loc := lres.2,
        trace := st.trace ++
          [Ev.split row, Ev.ensureBook row bres.1,
           Ev.ensureTime row tres.1, Ev.lookupLoc row lres.1] }
    if pyTruthy lv then
      ({ st1 with
         facts := st1.facts ++ [factRowOf fact_table row4],
         trace := st1.trace ++ [Ev.factInsert row] }, Option.none)
    else
      (st1, Option.some PyErr.valueError)

/-- The sales loop: process rows in order, stopping at the first error (the
raised exception aborts the loop). -/
def runSales (st : ETLState) : List Row → ETLState × Option PyErr
  | [] => (st, Option.none)
  | row :: rest =>
    match processSalesRow st row with
    | (st1, Option.none) => runSales st1 rest
    | (st1, Option.some e) => (st1, Option.some e)

/-- The Location bulk preload of `src/etl.py` (line 104): unconditional
`insert` of every reference row, in order. -/
def preload (st : ETLState) : List Row → ETLState
  | [] => st
  | row :: rest =>
    let ires := Dimension.insert location_dimension st.loc row
    preload
      { st with loc := ires.2, trace := st.trace ++ [Ev.locInsert row ires.1] }
      rest

/-- Job A (`src/etl.py`): preload the Location dimension from the reference
rows, run the sales loop, and, if no error was raised, perform the single
end-of-run commit (line 151).  On an error the commit is never reached. -/
def runJobA (init : ETLState) (region sales : List Row) :
    ETLState × Option PyErr :=
  let st1 := preload init region
  match runSales st1 sales with
  | (st2, Option.none) => ({ st2 with trace := st2.trace ++ [Ev.commit] }, Option.none)
  | (st2, Option.some e) => (st2, Option.some e)

/-- The empty initial warehouse state, with surrogate keys starting at 1. -/
def emptyETL : ETLState :=
  { book := { rows := [], nextKey := 1, cache := [] },
    time := { rows := [], nextKey := 1, cache := [] },
    loc := { rows := [], nextKey := 1, cache := [] },
    facts := [], trace := [] }

/-- The target table name of Job B (`src/upload.py`, line 11). -/
def uploadTable : String := "mr_tbl_datapool_client_nf_template"

/-- Job B (`src/upload.py`, lines 9-11): for each decompressed line of the
gzip input, one `copy_from` of that exact line into the target table, in
order, with no parsing or transformation.  Lines are uninterpreted byte strings,
so the definition is parametric in the line type. -/
def jobB {α : Type} (lines : List α) : List (α × String) :=
  lines.map (fun l => (l, uploadTable))

end ETL

namespace ETL

theorem rowGet_rowSet_self (r : Row) (k : String) (v : Val) :
    rowGet (rowSet r k v) k = Option.some v := by
  simp [rowGet, rowSet, List.find?]

theorem rowGet_rowSet_ne (r : Row) (k k' : String) (v : Val) (h : k' ≠ k) :
    rowGet (rowSet r k v) k' = rowGet r k' := by
  simp only [rowGet, rowSet, List.find?]
  have : (k == k') = false := by
    simp [beq_iff_eq]
    exact fun hk => h hk.symm
  simp [this]

theorem storedGet_mapOf (r : Row) (a : String) (l : List String) (h : a ∈ l) :
    storedGet (l.map (fun x => (x, rowGet r x))) a = rowGet r a := by
  induction l with
  | nil => cases h
  | cons b t ih =>
    by_cases hb : b = a
    · subst hb
      simp [storedGet, List.find?]
    · have ht : a ∈ t := by
        cases h with
        | head => exact absurd rfl hb
        | tail _ h2 => exact h2
      have hbeq : (b == a) = false := by simp [beq_iff_eq]; exact hb
      simpa [storedGet, List.find?, hbeq] using ih ht

theorem storedGet_storedOf (d : Dimension) (r : Row) (a : String)
    (h : a ∈ d.attributes) : storedGet (storedOf d r) a = rowGet r a :=
  storedGet_mapOf r a d.attributes h

theorem storedTuple_storedOf (d : Dimension) (r : Row)
    (h : ∀ a ∈ d.lookupatts, a ∈ d.attributes) :
    storedTuple d (storedOf d r) = tupleOf d r := by
  unfold storedTuple tupleOf
  exact List.map_congr_left (fun a ha => storedGet_storedOf d r a (h a ha))

end ETL

namespace ETL

theorem findKey_append_of_some {d : Dimension} {rows rows2 : List (Int × StoredRow)}
    {t : List (Option Val)} {k : Int} (h : findKey d rows t = Option.some k) :
    findKey d (rows ++ rows2) t = Option.some k := by
  unfold findKey at *
  rcases hf : rows.find? (fun p => decide (storedTuple d p.2 = t)) with _ | e
  · rw [hf] at h; cases h
  · rw [hf] at h
    rw [List.find?_append, hf]
    simpa using h

theorem findKey_append_single {d : Dimension} {rows : List (Int × StoredRow)}
    {t : List (Option Val)} {k : Int} {s : StoredRow}
    (h : findKey d rows t = Option.none) (hs : storedTuple d s = t) :
    findKey d (rows ++ [(k, s)]) t = Option.some k := by
  unfold findKey at *
  rcases hf : rows.find? (fun p => decide (storedTuple d p.2 = t)) with _ | e
  · rw [List.find?_append, hf]
    simp [List.find?, hs]
  · rw [hf] at h; cases h

theorem cacheFind_some {c : List (List (Option Val) × Int)} {t : List (Option Val)}
    {k : Int} (h : cacheFind c t = Option.some k) :
    ∃ e ∈ c, e.1 = t ∧ e.2 = k := by
  unfold cacheFind at h
  rcases hf : c.find? (fun e => decide (e.1 = t)) with _ | e
  · rw [hf] at h; cases h
  · rw [hf] at h
    have hp := List.find?_some hf
    refine ⟨e, List.mem_of_find?_eq_some hf, of_decide_eq_true hp, ?_⟩
    simpa using h

theorem lookup_snd_rows (d : Dimension) (st : DimState) (r : Row) :
    ((Dimension.lookup d st r).2).rows = st.rows := by
  simp only [Dimension.lookup]
  split
  · rfl
  · split <;> rfl

theorem lookup_snd_nextKey (d : Dimension) (st : DimState) (r : Row) :
    ((Dimension.lookup d st r).2).nextKey = st.nextKey := by
  simp only [Dimension.lookup]
  split
  · rfl
  · split <;> rfl

theorem lookup_fst (d : Dimension) (st : DimState) (r : Row) (hc : cacheOK d st) :
    (Dimension.lookup d st r).1 = findKey d st.rows (tupleOf d r) := by
  simp only [Dimension.lookup]
  split
  · next k heq =>
    obtain ⟨e, hmem, het, hek⟩ := cacheFind_some heq
    have := hc e hmem
    rw [het, hek] at this
    exact this.symm
  · next heq =>
    split
    · next k heq2 => exact heq2.symm
    · next heq2 => exact heq2.symm

theorem cacheOK_lookup (d : Dimension) (st : DimState) (r : Row) (hc : cacheOK d st) :
    cacheOK d ((Dimension.lookup d st r).2) := by
  simp only [Dimension.lookup]
  split
  · exact hc
  · split
    · next k heq2 =>
      intro e he
      simp only [List.mem_cons] at he
      rcases he with he | he
      · subst he; exact heq2
      · exact hc e he
    · exact hc

theorem cacheOK_insert (d : Dimension) (st : DimState) (r : Row) (hc : cacheOK d st) :
    cacheOK d ((Dimension.insert d st r).2) := by
  intro e he
  exact findKey_append_of_some (hc e he)

end ETL

namespace ETL

theorem ensure_found {d : Dimension} {st : DimState} {r : Row} {k : Int}
    (hc : cacheOK d st) (h : findKey d st.rows (tupleOf d r) = Option.some k) :
    (Dimension.ensure d st r).1 = k ∧
    ((Dimension.ensure d st r).2).rows = st.rows ∧
    ((Dimension.ensure d st r).2).nextKey = st.nextKey ∧
    cacheOK d ((Dimension.ensure d st r).2) := by
  have hfst : (Dimension.lookup d st r).1 = Option.some k := by
    rw [lookup_fst d st r hc, h]
  simp only [Dimension.ensure]
  rcases hL : Dimension.lookup d st r with ⟨res, st1⟩
  have hres : res = Option.some k := by rw [← hfst, hL]
  subst hres
  have h1 : st1.rows = st.rows := by rw [← lookup_snd_rows d st r, hL]
  have h2 : st1.nextKey = st.nextKey := by rw [← lookup_snd_nextKey d st r, hL]
  have h3 : cacheOK d st1 := by
    have := cacheOK_lookup d st r hc
    rwa [hL] at this
  exact ⟨rfl, h1, h2, h3⟩

theorem ensure_notfound {d : Dimension} {st : DimState} {r : Row}
    (hc : cacheOK d st) (h : findKey d st.rows (tupleOf d r) = Option.none) :
    (Dimension.ensure d st r).1 = st.nextKey ∧
    ((Dimension.ensure d st r).2).rows = st.rows ++ [(st.nextKey, storedOf d r)] ∧
    ((Dimension.ensure d st r).2).nextKey = st.nextKey + 1 ∧
    cacheOK d ((Dimension.ensure d st r).2) := by
  have hfst : (Dimension.lookup d st r).1 = Option.none := by
    rw [lookup_fst d st r hc, h]
  simp only [Dimension.ensure]
  rcases hL : Dimension.lookup d st r with ⟨res, st1⟩
  have hres : res = Option.none := by rw [← hfst, hL]
  subst hres
  have h1 : st1.rows = st.rows := by rw [← lookup_snd_rows d st r, hL]
  have h2 : st1.nextKey = st.nextKey := by rw [← lookup_snd_nextKey d st r, hL]
  have h3 : cacheOK d st1 := by
    have := cacheOK_lookup d st r hc
    rwa [hL] at this
  refine ⟨by simp [Dimension.insert, h2], ?_, ?_, ?_⟩
  · simp [Dimension.insert, h1, h2]
  · simp [Dimension.insert, h2]
  · exact cacheOK_insert d st1 r h3

theorem cacheOK_ensure (d : Dimension) (st : DimState) (r : Row) (hc : cacheOK d st) :
    cacheOK d ((Dimension.ensure d st r).2) := by
  rcases h : findKey d st.rows (tupleOf d r) with _ | k
  · exact (ensure_notfound hc h).2.2.2
  · exact (ensure_found hc h).2.2.2

end ETL

namespace ETL

/-- C2: for every row already inserted into a Dimension via `ensure`, calling
`ensure` again with a row having the same values for the lookup attributes
returns the same surrogate key and inserts no second dimension row. -/
theorem dimension_ensure_idempotent (d : Dimension) (st : DimState) (r r' : Row)
    (hc : cacheOK d st) (hsub : ∀ a ∈ d.lookupatts, a ∈ d.attributes)
    (ht : tupleOf d r' = tupleOf d r) :
    (Dimension.ensure d ((Dimension.ensure d st r).2) r').1 = (Dimension.ensure d st r).1 ∧
    ((Dimension.ensure d ((Dimension.ensure d st r).2) r').2).rows =
      ((Dimension.ensure d st r).2).rows := by
  rcases hk : findKey d st.rows (tupleOf d r) with _ | k
  · obtain ⟨h1, h2, h3, h4⟩ := ensure_notfound hc hk
    have hfind : findKey d ((Dimension.ensure d st r).2).rows (tupleOf d r') =
        Option.some st.nextKey := by
      rw [h2, ht]
      exact findKey_append_single hk (storedTuple_storedOf d r hsub)
    obtain ⟨g1, g2, _, _⟩ := ensure_found h4 hfind
    exact ⟨by rw [g1, h1], g2⟩
  · obtain ⟨h1, h2, h3, h4⟩ := ensure_found hc hk
    have hfind : findKey d ((Dimension.ensure d st r).2).rows (tupleOf d r') =
        Option.some k := by rw [h2, ht]; exact hk
    obtain ⟨g1, g2, _, _⟩ := ensure_found h4 hfind
    exact ⟨by rw [g1, h1], g2⟩

/-- Witness for C2: two sales rows sharing book `Dune` and genre `SciFi`
produce one Book dimension row; both get the same `bookid`. -/
theorem dimension_ensure_idempotent_witness :
    (Dimension.ensure book_dimension
      ((Dimension.ensure book_dimension
        { rows := [], nextKey := 1, cache := [] }
        [("book", Val.str "Dune"), ("genre", Val.str "SciFi"), ("sale", Val.int 3)]).2)
      [("book", Val.str "Dune"), ("genre", Val.str "SciFi"), ("sale", Val.int 7)]).1 =
    (Dimension.ensure book_dimension
      { rows := [], nextKey := 1, cache := [] }
      [("book", Val.str "Dune"), ("genre", Val.str "SciFi"), ("sale", Val.int 3)]).1 ∧
    ((Dimension.ensure book_dimension
      ((Dimension.ensure book_dimension
        { rows := [], nextKey := 1, cache := [] }
        [("book", Val.str "Dune"), ("genre", Val.str "SciFi"), ("sale", Val.int 3)]).2)
      [("book", Val.str "Dune"), ("genre", Val.str "SciFi"), ("sale", Val.int 7)]).2).rows =
    ((Dimension.ensure book_dimension
      { rows := [], nextKey := 1, cache := [] }
      [("book", Val.str "Dune"), ("genre", Val.str "SciFi"), ("sale", Val.int 3)]).2).rows :=
  dimension_ensure_idempotent book_dimension
    { rows := [], nextKey := 1, cache := [] }
    [("book", Val.str "Dune"), ("genre", Val.str "SciFi"), ("sale", Val.int 3)]
    [("book", Val.str "Dune"), ("genre", Val.str "SciFi"), ("sale", Val.int 7)]
    (by intro e he; cases he) (by decide) (by decide)

end ETL

namespace ETL

theorem findKey_eq_none_iff (d : Dimension) (rows : List (Int × StoredRow))
    (t : List (Option Val)) :
    findKey d rows t = Option.none ↔ ∀ p ∈ rows, storedTuple d p.2 ≠ t := by
  unfold findKey
  rcases hf : rows.find? (fun p => decide (storedTuple d p.2 = t)) with _ | e
  · rw [hf]
    simp only [Option.map_none', true_iff]
    intro p hp
    have := List.find?_eq_none.mp hf p hp
    simpa using this
  · rw [hf]
    simp only [Option.map_some']
    constructor
    · intro h; cases h
    · intro h
      have hp := List.find?_some hf
      have hmem := List.mem_of_find?_eq_some hf
      exact absurd (of_decide_eq_true hp) (h e hmem)

theorem dimInv_congr (d : Dimension) (st st' : DimState)
    (hr : st'.rows = st.rows) (hk : st'.nextKey = st.nextKey)
    (h : dimInv d st) : dimInv d st' := by
  unfold dimInv at *
  rw [hr, hk]
  exact h

theorem dimInv_snoc (d : Dimension) (rows : List (Int × StoredRow)) (nk : Int)
    (s : StoredRow)
    (hb : ∀ p ∈ rows, p.1 < nk) (hnd : (rows.map Prod.fst).Nodup) :
    (∀ p ∈ rows ++ [(nk, s)], p.1 < nk + 1) ∧
    ((rows ++ [(nk, s)]).map Prod.fst).Nodup := by
  constructor
  · intro p hp
    rcases List.mem_append.mp hp with hp | hp
    · exact lt_trans (hb p hp) (lt_add_one nk)
    · simp only [List.mem_singleton] at hp
      subst hp
      exact lt_add_one nk
  · rw [List.map_append]
    simp only [List.map_cons, List.map_nil]
    rw [List.nodup_append]
    refine ⟨hnd, List.nodup_singleton nk, ?_⟩
    intro a ha hb2
    simp only [List.mem_singleton] at hb2
    subst hb2
    obtain ⟨p, hp, hpa⟩ := List.mem_map.mp ha
    exact absurd hpa (ne_of_lt (hb p hp))

theorem dimInv_snoc_full (d : Dimension) (rows : List (Int × StoredRow)) (nk : Int)
    (s : StoredRow)
    (ham : ∀ p ∈ rows, ∀ q ∈ rows, storedTuple d p.2 = storedTuple d q.2 → p.1 = q.1)
    (hfresh : ∀ p ∈ rows, storedTuple d p.2 ≠ storedTuple d s) :
    ∀ p ∈ rows ++ [(nk, s)], ∀ q ∈ rows ++ [(nk, s)],
      storedTuple d p.2 = storedTuple d q.2 → p.1 = q.1 := by
  intro p hp q hq heq
  rcases List.mem_append.mp hp with hp | hp <;>
    rcases List.mem_append.mp hq with hq | hq
  · exact ham p hp q hq heq
  · simp only [List.mem_singleton] at hq
    subst hq
    exact absurd heq (hfresh p hp)
  · simp only [List.mem_singleton] at hp
    subst hp
    exact absurd heq.symm (hfresh q hq)
  · simp only [List.mem_singleton] at hp hq
    subst hp; subst hq; rfl

end ETL

namespace ETL

/-- C5 (amended): `lookup` preserves the stored rows and hence the dimension
invariant; `insert` always preserves key-boundedness and key-uniqueness, and
preserves the full invariant when no stored row already has the new row's
lookup tuple; `ensure` only ever appends rows and always preserves the full
invariant.  (The unconditional-insert bulk preload preserves the full
invariant only for reference files with pairwise distinct cities; see the
counterexample `insert` with a duplicate city.) -/
theorem dimension_ops_preserve_invariant (d : Dimension) (st : DimState) (r : Row)
    (hc : cacheOK d st) (hsub : ∀ a ∈ d.lookupatts, a ∈ d.attributes)
    (hinv : dimInv d st) :
    (((Dimension.lookup d st r).2).rows = st.rows ∧
      dimInv d ((Dimension.lookup d st r).2)) ∧
    (((Dimension.insert d st r).2).rows = st.rows ++ [(st.nextKey, storedOf d r)] ∧
      (∀ p ∈ ((Dimension.insert d st r).2).rows, p.1 < ((Dimension.insert d st r).2).nextKey) ∧
      (((Dimension.insert d st r).2).rows.map Prod.fst).Nodup ∧
      ((∀ p ∈ st.rows, storedTuple d p.2 ≠ tupleOf d r) →
        dimInv d ((Dimension.insert d st r).2))) ∧
    ((∃ tl, ((Dimension.ensure d st r).2).rows = st.rows ++ tl) ∧
      dimInv d ((Dimension.ensure d st r).2)) := by
  obtain ⟨hb, hnd, ham⟩ := hinv
  refine ⟨⟨lookup_snd_rows d st r, ?_⟩, ⟨rfl, ?_, ?_, ?_⟩, ?_, ?_⟩
  · exact dimInv_congr d st _ (lookup_snd_rows d st r) (lookup_snd_nextKey d st r)
      ⟨hb, hnd, ham⟩
  · exact (dimInv_snoc d st.rows st.nextKey (storedOf d r) hb hnd).1
  · exact (dimInv_snoc d st.rows st.nextKey (storedOf d r) hb hnd).2
  · intro hfresh
    refine ⟨(dimInv_snoc d st.rows st.nextKey (storedOf d r) hb hnd).1,
      (dimInv_snoc d st.rows st.nextKey (storedOf d r) hb hnd).2, ?_⟩
    exact dimInv_snoc_full d st.rows st.nextKey (storedOf d r) ham
      (fun p hp => by rw [storedTuple_storedOf d r hsub]; exact hfresh p hp)
  · rcases hk : findKey d st.rows (tupleOf d r) with _ | k
    · exact ⟨[(st.nextKey, storedOf d r)], (ensure_notfound hc hk).2.1⟩
    · exact ⟨[], by rw [(ensure_found hc hk).2.1, List.append_nil]⟩
  · rcases hk : findKey d st.rows (tupleOf d r) with _ | k
    · obtain ⟨h1, h2, h3, h4⟩ := ensure_notfound hc hk
      have hfresh := (findKey_eq_none_iff d st.rows (tupleOf d r)).mp hk
      unfold dimInv
      rw [h2, h3]
      exact ⟨(dimInv_snoc d st.rows st.nextKey (storedOf d r) hb hnd).1,
        (dimInv_snoc d st.rows st.nextKey (storedOf d r) hb hnd).2,
        dimInv_snoc_full d st.rows st.nextKey (storedOf d r) ham
          (fun p hp => by rw [storedTuple_storedOf d r hsub]; exact hfresh p hp)⟩
    · obtain ⟨h1, h2, h3, h4⟩ := ensure_found hc hk
      exact dimInv_congr d st _ h2 h3 ⟨hb, hnd, ham⟩

/-- C5 counterexample: a Location dimension state satisfying the invariant,
holding city `A` under surrogate key 1; the unconditional `insert` of a
second row with the same city `A` (a duplicate city in the reference file)
yields a state where the same lookup tuple maps to two distinct surrogate
keys, so the invariant is violated. -/
theorem insert_duplicate_city_breaks_invariant :
    dimInv location_dimension
      { rows := [(1, [("city", Option.some (Val.str "A")),
                      ("region", Option.some (Val.str "R1"))])],
        nextKey := 2, cache := [] } ∧
    ¬ dimInv location_dimension
      ((Dimension.insert location_dimension
        { rows := [(1, [("city", Option.some (Val.str "A")),
                        ("region", Option.some (Val.str "R1"))])],
          nextKey := 2, cache := [] }
        [("city", Val.str "A"), ("region", Val.str "R2")]).2) := by
  constructor
  · unfold dimInv storedTuple storedGet
    decide
  · intro h
    have := h.2.2
      (1, [("city", Option.some (Val.str "A")), ("region", Option.some (Val.str "R1"))])
      (by decide)
      (2, [("city", Option.some (Val.str "A")), ("region", Option.some (Val.str "R2"))])
      (by decide)
      (by decide)
    cases this

/-- C6: `Dimension.lookup` never mutates the backing store and never raises
(it is a total function): the stored rows are identical before and after the
call, the result is exactly the backing store's answer for the row's lookup
tuple, and the not-found sentinel is returned precisely when no stored row
matches the lookup-attribute values. -/
theorem dimension_lookup_readonly (d : Dimension) (st : DimState) (r : Row)
    (hc : cacheOK d st) :
    ((Dimension.lookup d st r).2).rows = st.rows ∧
    (Dimension.lookup d st r).1 = findKey d st.rows (tupleOf d r) ∧
    ((Dimension.lookup d st r).1 = Option.none ↔
      ∀ p ∈ st.rows, storedTuple d p.2 ≠ tupleOf d r) := by
  refine ⟨lookup_snd_rows d st r, lookup_fst d st r hc, ?_⟩
  rw [lookup_fst d st r hc]
  exact findKey_eq_none_iff d st.rows (tupleOf d r)

end ETL

namespace ETL

theorem split_timestamp_ok_shape {row r1 : Row}
    (h : split_timestamp row = Except.ok r1) :
    ∃ ts p0 p1 p2 rest,
      rowGet row "timestamp" = Option.some (Val.str ts) ∧
      pySplit ts '/' = p0 :: p1 :: p2 :: rest ∧
      r1 = rowSet (rowSet (rowSet row "year" (Val.str p0)) "month" (Val.str p1))
        "day" (Val.str p2) := by
  unfold split_timestamp at h
  rcases hg : rowGet row "timestamp" with _ | v
  · rw [hg] at h; cases h
  · rw [hg] at h
    rcases v with s | n | _
    · dsimp only at h
      rcases hs : pySplit s '/' with _ | ⟨p0, _ | ⟨p1, _ | ⟨p2, rest⟩⟩⟩ <;>
        rw [hs] at h <;> dsimp only at h
      · cases h
      · cases h
      · cases h
      · exact ⟨s, p0, p1, p2, rest, rfl, hs, ((Except.ok.injEq _ _).mp h).symm⟩
    · dsimp only at h; cases h
    · dsimp only at h; cases h

/-- C3: for every input row whose `timestamp` field is a string splitting on
`/` into exactly the three parts `p0`, `p1`, `p2`, `split_timestamp` returns
the same row updated so that `year = p0`, `month = p1`, `day = p2`, each the
unmodified string part (positional, no semantic date validation), and every
other field is unchanged. -/
theorem split_timestamp_three_parts (row : Row) (ts p0 p1 p2 : String)
    (hts : rowGet row "timestamp" = Option.some (Val.str ts))
    (hsplit : pySplit ts '/' = [p0, p1, p2]) :
    ∃ r1, split_timestamp row = Except.ok r1 ∧
      rowGet r1 "year" = Option.some (Val.str p0) ∧
      rowGet r1 "month" = Option.some (Val.str p1) ∧
      rowGet r1 "day" = Option.some (Val.str p2) ∧
      ∀ k, k ≠ "year" → k ≠ "month" → k ≠ "day" → rowGet r1 k = rowGet row k := by
  refine ⟨rowSet (rowSet (rowSet row "year" (Val.str p0)) "month" (Val.str p1))
    "day" (Val.str p2), ?_, ?_, ?_, ?_, ?_⟩
  · unfold split_timestamp
    rw [hts]
    dsimp only
    rw [hsplit]
  · rw [rowGet_rowSet_ne _ _ _ _ (by decide), rowGet_rowSet_ne _ _ _ _ (by decide),
      rowGet_rowSet_self]
  · rw [rowGet_rowSet_ne _ _ _ _ (by decide), rowGet_rowSet_self]
  · rw [rowGet_rowSet_self]
  · intro k h1 h2 h3
    rw [rowGet_rowSet_ne _ _ _ _ h3, rowGet_rowSet_ne _ _ _ _ h2,
      rowGet_rowSet_ne _ _ _ _ h1]

/-- C7 counterexample: the timestamp `"2021/01/09/17"` splits on `/` into
four parts, not three, yet `split_timestamp` does not fail: it silently
assigns the first three parts to year/month/day and ignores the fourth,
refuting the claim that any row whose timestamp does not split into exactly
three parts fails. -/
theorem split_timestamp_four_parts_succeeds :
    pySplit "2021/01/09/17" '/' = ["2021", "01", "09", "17"] ∧
    split_timestamp [("timestamp", Val.str "2021/01/09/17")] =
      Except.ok [("day", Val.str "09"), ("month", Val.str "01"),
        ("year", Val.str "2021"), ("timestamp", Val.str "2021/01/09/17")] := by
  constructor
  · decide
  · rfl

/-- C7 (amended): `split_timestamp` fails when the `timestamp` field is
missing (key error) or when the value splits on `/` into fewer than three
parts (index error); when it splits into three or more parts it succeeds,
assigning the first three parts positionally to year/month/day. -/
theorem split_timestamp_failure_modes (row : Row) :
    (rowGet row "timestamp" = Option.none →
      split_timestamp row = Except.error PyErr.keyError) ∧
    (∀ ts, rowGet row "timestamp" = Option.some (Val.str ts) →
      (pySplit ts '/').length < 3 →
      split_timestamp row = Except.error PyErr.indexError) ∧
    (∀ ts p0 p1 p2 rest, rowGet row "timestamp" = Option.some (Val.str ts) →
      pySplit ts '/' = p0 :: p1 :: p2 :: rest →
      split_timestamp row = Except.ok
        (rowSet (rowSet (rowSet row "year" (Val.str p0)) "month" (Val.str p1))
          "day" (Val.str p2))) := by
  refine ⟨?_, ?_, ?_⟩
  · intro h
    unfold split_timestamp
    rw [h]
  · intro ts h hlen
    unfold split_timestamp
    rw [h]
    dsimp only
    rcases hs : pySplit ts '/' with _ | ⟨p0, _ | ⟨p1, _ | ⟨p2, rest⟩⟩⟩ <;> dsimp only
    rw [hs] at hlen
    simp only [List.length_cons] at hlen
    omega
  · intro ts p0 p1 p2 rest h hs
    unfold split_timestamp
    rw [h]
    dsimp only
    rw [hs]

end ETL

namespace ETL

theorem tupleOf_loc_city (row r1 : Row)
    (hsplit : split_timestamp row = Except.ok r1) (bk tk : Int) :
    tupleOf location_dimension
      (rowSet (rowSet r1 "bookid" (Val.int bk)) "timeid" (Val.int tk)) =
      [rowGet row "city"] := by
  obtain ⟨ts, p0, p1, p2, rest, hts, hs, hr1⟩ := split_timestamp_ok_shape hsplit
  subst hr1
  show [rowGet (rowSet (rowSet _ "bookid" _) "timeid" _) "city"] = [rowGet row "city"]
  rw [rowGet_rowSet_ne _ _ _ _ (by decide), rowGet_rowSet_ne _ _ _ _ (by decide),
    rowGet_rowSet_ne _ _ _ _ (by decide), rowGet_rowSet_ne _ _ _ _ (by decide),
    rowGet_rowSet_ne _ _ _ _ (by decide)]

/-- C1: for every sales row whose city has no matching row in the Location
dimension, the driver raises the referential-integrity `ValueError` after the
Location lookup (the lookup event is in the trace) and before any fact-table
insert for that row (the fact rows are unchanged and no fact-insert event is
emitted); the error is fatal: the rest of the sales loop is never run, so
the row is not skipped and nothing is retried. -/
theorem jobA_aborts_on_unknown_city (st : ETLState) (row r1 : Row)
    (hsplit : split_timestamp row = Except.ok r1)
    (hc : cacheOK location_dimension st.loc)
    (hmiss : findKey location_dimension st.loc.rows [rowGet row "city"] = Option.none) :
    (processSalesRow st row).2 = Option.some PyErr.valueError ∧
    ((processSalesRow st row).1).facts = st.facts ∧
    (∃ bk tk, ((processSalesRow st row).1).trace = st.trace ++
      [Ev.split row, Ev.ensureBook row bk, Ev.ensureTime row tk,
       Ev.lookupLoc row Option.none]) ∧
    (∀ post, runSales st (row :: post) =
      ((processSalesRow st row).1, Option.some PyErr.valueError)) := by
  have hcity : ∀ bk tk : Int,
      (Dimension.lookup location_dimension st.loc
        (rowSet (rowSet r1 "bookid" (Val.int bk)) "timeid" (Val.int tk))).1 =
        Option.none := by
    intro bk tk
    rw [lookup_fst _ _ _ hc, tupleOf_loc_city row r1 hsplit bk tk]
    exact hmiss
  have hmain : (processSalesRow st row).2 = Option.some PyErr.valueError ∧
      ((processSalesRow st row).1).facts = st.facts ∧
      (∃ bk tk, ((processSalesRow st row).1).trace = st.trace ++
        [Ev.split row, Ev.ensureBook row bk, Ev.ensureTime row tk,
         Ev.lookupLoc row Option.none]) := by
    simp only [processSalesRow, hsplit]
    rw [hcity]
    simp only [valOfKey, pyTruthy]
    refine ⟨rfl, rfl, ?_⟩
    exact ⟨_, _, rfl⟩
  refine ⟨hmain.1, hmain.2.1, hmain.2.2, ?_⟩
  intro post
  show runSales st (row :: post) = _
  simp only [runSales]
  rcases hP : processSalesRow st row with ⟨st1, e⟩
  have he : e = Option.some PyErr.valueError := by
    have := hmain.1
    rw [hP] at this
    exact this
  subst he
  rfl

end ETL

namespace ETL

/-- C8: the driver's not-found check `if not row['locationid']` is a
truthiness test: when the Location lookup succeeds but returns the falsy
surrogate key 0, the job still aborts with the referential-integrity
`ValueError`, even though the lookup event in the trace records the
successful result `some 0`. -/
theorem jobA_truthiness_aborts_on_zero_key (st : ETLState) (row r1 : Row)
    (hsplit : split_timestamp row = Except.ok r1)
    (hc : cacheOK location_dimension st.loc)
    (hzero : findKey location_dimension st.loc.rows [rowGet row "city"] =
      Option.some 0) :
    (processSalesRow st row).2 = Option.some PyErr.valueError ∧
    ((processSalesRow st row).1).facts = st.facts ∧
    (∃ bk tk, ((processSalesRow st row).1).trace = st.trace ++
      [Ev.split row, Ev.ensureBook row bk, Ev.ensureTime row tk,
       Ev.lookupLoc row (Option.some 0)]) := by
  have hcity : ∀ bk tk : Int,
      (Dimension.lookup location_dimension st.loc
        (rowSet (rowSet r1 "bookid" (Val.int bk)) "timeid" (Val.int tk))).1 =
        Option.some 0 := by
    intro bk tk
    rw [lookup_fst _ _ _ hc, tupleOf_loc_city row r1 hsplit bk tk]
    exact hzero
  simp only [processSalesRow, hsplit]
  rw [hcity]
  simp only [valOfKey, pyTruthy]
  norm_num

theorem processSalesRow_ok {st : ETLState} {row : Row} {st1 : ETLState}
    (h : processSalesRow st row = (st1, Option.none)) :
    ∃ bk tk lk, st1.trace = st.trace ++
      [Ev.split row, Ev.ensureBook row bk, Ev.ensureTime row tk,
       Ev.lookupLoc row (Option.some lk), Ev.factInsert row] := by
  simp only [processSalesRow] at h
  rcases hsp : split_timestamp row with e | r1 <;> rw [hsp] at h <;> dsimp only at h
  · simp at h
  · split at h
    · next hcond =>
      rcases hres : (Dimension.lookup location_dimension st.loc
          (rowSet (rowSet r1 "bookid"
            (Val.int (Dimension.ensure book_dimension st.book r1).1)) "timeid"
            (Val.int (Dimension.ensure time_dimension st.time
              (rowSet r1 "bookid"
                (Val.int (Dimension.ensure book_dimension st.book r1).1))).1))).1
          with _ | lk
      · rw [hres] at hcond
        simp [valOfKey, pyTruthy] at hcond
      · rw [hres] at h
        obtain ⟨h1, _⟩ := Prod.mk.injEq .. |>.mp h
        refine ⟨(Dimension.ensure book_dimension st.book r1).1,
          (Dimension.ensure time_dimension st.time
            (rowSet r1 "bookid"
              (Val.int (Dimension.ensure book_dimension st.book r1).1))).1,
          lk, ?_⟩
        rw [← h1]
        simp [List.append_assoc]
    · next hcond =>
      simp at h

end ETL

namespace ETL

/-- C10: in a successful run of the sales loop, the warehouse operations
occur strictly in source-row order, and for each individual sales row the
per-row operations are the contiguous block: split timestamp, ensure Book
key, ensure Time key, lookup Location key, insert into the fact table — so
Book/Time ensure-operations always precede the Location lookup and the fact
insert for the same row. -/
theorem jobA_row_operation_order (rows : List Row) : ∀ st st' : ETLState,
    runSales st rows = (st', Option.none) →
    ∃ ks : List (Int × Int × Int), ks.length = rows.length ∧
      st'.trace = st.trace ++ (rows.zip ks).flatMap (fun p =>
        [Ev.split p.1, Ev.ensureBook p.1 p.2.1, Ev.ensureTime p.1 p.2.2.1,
         Ev.lookupLoc p.1 (Option.some p.2.2.2), Ev.factInsert p.1]) := by
  induction rows with
  | nil =>
    intro st st' h
    simp only [runSales] at h
    obtain ⟨h1, _⟩ := Prod.mk.injEq .. |>.mp h
    refine ⟨[], rfl, ?_⟩
    rw [← h1]
    simp
  | cons row rest ih =>
    intro st st' h
    simp only [runSales] at h
    rcases hP : processSalesRow st row with ⟨st1, e⟩
    rw [hP] at h
    rcases e with _ | e
    · dsimp only at h
      obtain ⟨ks, hlen, htr⟩ := ih st1 st' h
      obtain ⟨bk, tk, lk, htr1⟩ := processSalesRow_ok hP
      refine ⟨(bk, tk, lk) :: ks, by simp [hlen], ?_⟩
      rw [htr, htr1]
      simp [List.append_assoc]
    · dsimp only at h
      simp at h
end ETL

namespace ETL

theorem processSalesRow_countCommit (st : ETLState) (row : Row) :
    countCommit ((processSalesRow st row).1).trace = countCommit st.trace := by
  simp only [processSalesRow]
  rcases hsp : split_timestamp row with e | r1 <;> dsimp only
  · simp [countCommit, List.countP_append, Ev.isCommit]
  · split <;> simp [countCommit, List.countP_append, Ev.isCommit, List.countP_cons]

theorem runSales_countCommit (rows : List Row) : ∀ st : ETLState,
    countCommit ((runSales st rows).1).trace = countCommit st.trace := by
  induction rows with
  | nil => intro st; rfl
  | cons row rest ih =>
    intro st
    simp only [runSales]
    rcases hP : processSalesRow st row with ⟨st1, e⟩
    have hcc : countCommit st1.trace = countCommit st.trace := by
      have := processSalesRow_countCommit st row
      rw [hP] at this
      exact this
    rcases e with _ | e
    · dsimp only
      rw [ih st1, hcc]
    · dsimp only
      exact hcc

theorem preload_countCommit (rows : List Row) : ∀ st : ETLState,
    countCommit (preload st rows).trace = countCommit st.trace := by
  induction rows with
  | nil => intro st; rfl
  | cons row rest ih =>
    intro st
    simp only [preload]
    rw [ih]
    simp [countCommit, List.countP_append, Ev.isCommit]

/-- C4: Job A performs exactly one commit, as the very last warehouse
operation of a successful run (after every Location, Book, Time and fact
write); if the run aborts with any error, no commit has been executed, so
none of the inserts made during the run are durably committed. -/
theorem jobA_single_final_commit (init : ETLState) (region sales : List Row)
    (h : countCommit init.trace = 0) :
    (∀ st2, runJobA init region sales = (st2, Option.none) →
      countCommit st2.trace = 1 ∧ st2.trace.getLast? = Option.some Ev.commit) ∧
    (∀ st2 e, runJobA init region sales = (st2, Option.some e) →
      countCommit st2.trace = 0) := by
  have hpre : countCommit (preload init region).trace = 0 := by
    rw [preload_countCommit region init]; exact h
  have hrs : countCommit ((runSales (preload init region) sales).1).trace = 0 := by
    rw [runSales_countCommit sales (preload init region)]; exact hpre
  constructor
  · intro st2 heq
    unfold runJobA at heq
    dsimp only at heq
    rcases hR : runSales (preload init region) sales with ⟨stS, e⟩
    rw [hR] at heq
    rcases e with _ | e
    · dsimp only at heq
      obtain ⟨h1, _⟩ := Prod.mk.injEq .. |>.mp heq
      rw [← h1]
      constructor
      · show countCommit (stS.trace ++ [Ev.commit]) = 1
        have : countCommit stS.trace = 0 := by rw [hR] at hrs; exact hrs
        simp [countCommit, List.countP_append, Ev.isCommit] at this ⊢
        exact this
      · show (stS.trace ++ [Ev.commit]).getLast? = Option.some Ev.commit
        simp
    · dsimp only at heq
      simp at heq
  · intro st2 e heq
    unfold runJobA at heq
    dsimp only at heq
    rcases hR : runSales (preload init region) sales with ⟨stS, e2⟩
    rw [hR] at heq
    rcases e2 with _ | e2
    · dsimp only at heq
      simp at heq
    · dsimp only at heq
      obtain ⟨h1, _⟩ := Prod.mk.injEq .. |>.mp heq
      rw [← h1]
      rw [hR] at hrs
      exact hrs

end ETL

namespace ETL

/-- C9: for a gzip input of n decompressed lines, Job B streams exactly n
rows into the target warehouse table, the i-th streamed row being exactly
the i-th line (byte-identical, original order, no transformation). -/
theorem jobB_streams_lines_in_order {α : Type} (lines : List α) :
    (jobB lines).length = lines.length ∧
    ∀ i : Nat, (jobB lines)[i]? = (lines[i]?).map (fun l => (l, uploadTable)) := by
  constructor
  · simp [jobB]
  · intro i
    simp [jobB]

/-- Witness for C1 at a concrete input. -/
theorem jobA_aborts_on_unknown_city_witness :
    (processSalesRow
      { book := { rows := [], nextKey := 1, cache := [] },
        time := { rows := [], nextKey := 1, cache := [] },
        loc := { rows := [(1, [("city", Option.some (Val.str "Springfield")),
                               ("region", Option.some (Val.str "Midwest"))])],
                 nextKey := 2, cache := [] },
        facts := [], trace := [] }
      [("book", Val.str "Dune"), ("genre", Val.str "SciFi"),
       ("city", Val.str "Atlantis"), ("timestamp", Val.str "2020/05/14"),
       ("sale", Val.int 3)]).2 = Option.some PyErr.valueError :=
  (jobA_aborts_on_unknown_city _ _
    (rowSet (rowSet (rowSet
      [("book", Val.str "Dune"), ("genre", Val.str "SciFi"),
       ("city", Val.str "Atlantis"), ("timestamp", Val.str "2020/05/14"),
       ("sale", Val.int 3)] "year" (Val.str "2020")) "month" (Val.str "05"))
      "day" (Val.str "14"))
    (by rfl) (by intro e he; cases he) (by decide)).1

/-- Witness for C3 at a concrete input. -/
theorem split_timestamp_three_parts_witness :
    ∃ r1, split_timestamp [("timestamp", Val.str "2021/01/09")] = Except.ok r1 ∧
      rowGet r1 "year" = Option.some (Val.str "2021") ∧
      rowGet r1 "month" = Option.some (Val.str "01") ∧
      rowGet r1 "day" = Option.some (Val.str "09") ∧
      ∀ k, k ≠ "year" → k ≠ "month" → k ≠ "day" →
        rowGet r1 k = rowGet [("timestamp", Val.str "2021/01/09")] k :=
  split_timestamp_three_parts [("timestamp", Val.str "2021/01/09")]
    "2021/01/09" "2021" "01" "09" (by decide) (by decide)

/-- Witness for C8 at a concrete input. -/
theorem jobA_truthiness_aborts_on_zero_key_witness :
    (processSalesRow
      { book := { rows := [], nextKey := 1, cache := [] },
        time := { rows := [], nextKey := 1, cache := [] },
        loc := { rows := [(0, [("city", Option.some (Val.str "Springfield")),
                               ("region", Option.some (Val.str "Midwest"))])],
                 nextKey := 1, cache := [] },
        facts := [], trace := [] }
      [("book", Val.str "Dune"), ("genre", Val.str "SciFi"),
       ("city", Val.str "Springfield"), ("timestamp", Val.str "2020/05/14"),
       ("sale", Val.int 3)]).2 = Option.some PyErr.valueError :=
  (jobA_truthiness_aborts_on_zero_key _ _
    (rowSet (rowSet (rowSet
      [("book", Val.str "Dune"), ("genre", Val.str "SciFi"),
       ("city", Val.str "Springfield"), ("timestamp", Val.str "2020/05/14"),
       ("sale", Val.int 3)] "year" (Val.str "2020")) "month" (Val.str "05"))
      "day" (Val.str "14"))
    (by rfl) (by intro e he; cases he) (by decide)).1

end ETL

namespace ETL

/-- Witness for C4 at a concrete input. -/
theorem jobA_single_final_commit_witness :
    countCommit ((runJobA emptyETL
      [[("city", Val.str "S"), ("region", Val.str "M")]]
      [[("book", Val.str "B"), ("genre", Val.str "G"), ("city", Val.str "S"),
        ("timestamp", Val.str "2020/05/14"), ("sale", Val.int 3)]]).1).trace = 1 ∧
    ((runJobA emptyETL
      [[("city", Val.str "S"), ("region", Val.str "M")]]
      [[("book", Val.str "B"), ("genre", Val.str "G"), ("city", Val.str "S"),
        ("timestamp", Val.str "2020/05/14"), ("sale", Val.int 3)]]).1).trace.getLast? =
      Option.some Ev.commit :=
  (jobA_single_final_commit emptyETL
    [[("city", Val.str "S"), ("region", Val.str "M")]]
    [[("book", Val.str "B"), ("genre", Val.str "G"), ("city", Val.str "S"),
      ("timestamp", Val.str "2020/05/14"), ("sale", Val.int 3)]] rfl).1
    _ (by decide)

/-- Witness for C5 at a concrete input. -/
theorem dimension_ops_preserve_invariant_witness :
    dimInv location_dimension
      ((Dimension.ensure location_dimension { rows := [], nextKey := 1, cache := [] }
        [("city", Val.str "A"), ("region", Val.str "R")]).2) :=
  (dimension_ops_preserve_invariant location_dimension { rows := [], nextKey := 1, cache := [] }
    [("city", Val.str "A"), ("region", Val.str "R")]
    (by intro e he; cases he) (by decide)
    (by unfold dimInv storedTuple storedGet; decide)).2.2.2

/-- Witness for C6 at a concrete input. -/
theorem dimension_lookup_readonly_witness :
    ((Dimension.lookup location_dimension
      { rows := [(1, [("city", Option.some (Val.str "S")),
                      ("region", Option.some (Val.str "M"))])],
        nextKey := 2, cache := [] }
      [("city", Val.str "S")]).2).rows =
      [(1, [("city", Option.some (Val.str "S")),
            ("region", Option.some (Val.str "M"))])] ∧
    (Dimension.lookup location_dimension
      { rows := [(1, [("city", Option.some (Val.str "S")),
                      ("region", Option.some (Val.str "M"))])],
        nextKey := 2, cache := [] }
      [("city", Val.str "S")]).1 =
      findKey location_dimension
        [(1, [("city", Option.some (Val.str "S")),
              ("region", Option.some (Val.str "M"))])]
        (tupleOf location_dimension [("city", Val.str "S")]) ∧
    ((Dimension.lookup location_dimension
      { rows := [(1, [("city", Option.some (Val.str "S")),
                      ("region", Option.some (Val.str "M"))])],
        nextKey := 2, cache := [] }
      [("city", Val.str "S")]).1 = Option.none ↔
      ∀ p ∈ [(1, [("city", Option.some (Val.str "S")),
                  ("region", Option.some (Val.str "M"))])],
        storedTuple location_dimension p.2 ≠
          tupleOf location_dimension [("city", Val.str "S")]) :=
  by
  simpa using dimension_lookup_readonly location_dimension
    { rows := [(1, [("city", Option.some (Val.str "S")),
                    ("region", Option.some (Val.str "M"))])],
      nextKey := 2, cache := [] }
    [("city", Val.str "S")] (by intro e he; cases he)

/-- Witness for C7 at a concrete input. -/
theorem split_timestamp_failure_modes_witness :
    split_timestamp ([] : Row) = Except.error PyErr.keyError ∧
    split_timestamp [("timestamp", Val.str "20210109")] =
      Except.error PyErr.indexError ∧
    split_timestamp [("timestamp", Val.str "2021/01/09")] =
      Except.ok (rowSet (rowSet (rowSet [("timestamp", Val.str "2021/01/09")]
        "year" (Val.str "2021")) "month" (Val.str "01")) "day" (Val.str "09")) :=
  ⟨(split_timestamp_failure_modes ([] : Row)).1 rfl,
   (split_timestamp_failure_modes [("timestamp", Val.str "20210109")]).2.1
     "20210109" rfl (by decide),
   (split_timestamp_failure_modes [("timestamp", Val.str "2021/01/09")]).2.2
     "2021/01/09" "2021" "01" "09" [] rfl (by decide)⟩

/-- Witness for C10 at a concrete input. -/
theorem jobA_row_operation_order_witness :
    ∃ ks : List (Int × Int × Int),
      ks.length = [[("book", Val.str "B"), ("genre", Val.str "G"),
        ("city", Val.str "S"), ("timestamp", Val.str "2020/05/14"),
        ("sale", Val.int 3)]].length ∧
      ((runSales
        { book := { rows := [], nextKey := 1, cache := [] },
          time := { rows := [], nextKey := 1, cache := [] },
          loc := { rows := [(1, [("city", Option.some (Val.str "S")),
                                 ("region", Option.some (Val.str "M"))])],
                   nextKey := 2, cache := [] },
          facts := [], trace := [] }
        [[("book", Val.str "B"), ("genre", Val.str "G"),
          ("city", Val.str "S"), ("timestamp", Val.str "2020/05/14"),
          ("sale", Val.int 3)]]).1).trace =
      ([] : List Ev) ++ (([[("book", Val.str "B"), ("genre", Val.str "G"),
        ("city", Val.str "S"), ("timestamp", Val.str "2020/05/14"),
        ("sale", Val.int 3)]].zip ks).flatMap (fun p =>
        [Ev.split p.1, Ev.ensureBook p.1 p.2.1, Ev.ensureTime p.1 p.2.2.1,
         Ev.lookupLoc p.1 (Option.some p.2.2.2), Ev.factInsert p.1])) :=
  jobA_row_operation_order
    [[("book", Val.str "B"), ("genre", Val.str "G"),
      ("city", Val.str "S"), ("timestamp", Val.str "2020/05/14"),
      ("sale", Val.int 3)]]
    { book := { rows := [], nextKey := 1, cache := [] },
      time := { rows := [], nextKey := 1, cache := [] },
      loc := { rows := [(1, [("city", Option.some (Val.str "S")),
                             ("region", Option.some (Val.str "M"))])],
               nextKey := 2, cache := [] },
      facts := [], trace := [] }
    _ (by decide)

end ETL
